import Mathlib

/-!
Verification of the librosa core module (`librosa/__init__.py`) against its
natural-language specification.

The Python source is shallowly embedded: numpy float arrays become `List ℝ`
(or `List ℤ` for order-only primitives), numpy 2-D arrays become a `NpArray`
structure carrying `ndim`/shape fields and a total entry function, fallible
numpy operations (negative dimensions, bad indexing, pad overflow) become
`Except String`.  Machine floats are modelled by real numbers.
-/

open scoped BigOperators

set_option maxRecDepth 100000

namespace Librosa

/-! ### Auxiliary primitives: `localmax` (lines 499-505)

`numpy.logical_and(x > numpy.hstack([x[0], x[:-1]]), x >= numpy.hstack([x[1:], x[-1]]))`.
The left comparison vector is `x[0]` followed by `x` without its last element;
the right comparison vector is `x` without its first element followed by `x[-1]`.
-/

def localmax {α : Type} [LinearOrder α] (x : List α) : List Bool :=
  match x with
  | [] => []
  | h :: t =>
    List.zipWith (fun a p => decide (p.1 < a) && decide (p.2 ≤ a))
      (h :: t) ((h :: (h :: t).dropLast).zip (t ++ [t.getLastD h]))

/-! ### Auxiliary primitives: `feature_sync` (lines 424-452)

`F = numpy.unique(numpy.concatenate(([0], F, [X.shape[1]])))` produces the
sorted deduplicated boundary list; aggregation then runs over consecutive
half-open column intervals `[lb, ub)`.
-/

/-- Sorted duplicate-free insertion, the building block of `numpy.unique`. -/
def insertB (a : ℕ) : List ℕ → List ℕ
  | [] => [a]
  | b :: t => if a < b then a :: b :: t else if a = b then b :: t else b :: insertB a t

/-- `numpy.unique`: the sorted list of distinct values. -/
def npUnique (l : List ℕ) : List ℕ := l.foldr insertB []

def feature_sync_boundaries (T : ℕ) (F : List ℕ) : List ℕ :=
  npUnique (0 :: F ++ [T])

def feature_sync_segments (T : ℕ) (F : List ℕ) : List (ℕ × ℕ) :=
  (feature_sync_boundaries T F).zip (feature_sync_boundaries T F).tail

/-- Real matrix with explicit dimensions; entries outside the dimensions are 0. -/
structure MatR where
  rows : ℕ
  cols : ℕ
  entry : ℕ → ℕ → ℝ

/-- `feature_sync` itself: `Y[:,i] = mean(X[:, lb:ub], axis=1)` over the
consecutive boundary pairs. -/
noncomputable def feature_sync (X : MatR) (F : List ℕ) : MatR :=
  let segs := feature_sync_segments X.cols F
  { rows := X.rows
    cols := segs.length
    entry := fun i s =>
      let lb := (segs.getD s (0, 0)).1
      let ub := (segs.getD s (0, 0)).2
      (∑ c ∈ Finset.Ico lb ub, X.entry i c) / ((ub : ℝ) - lb) }

/-! Helper lemmas for the segment-coverage proof. -/

lemma straddle_count_zero (c y : ℕ) (l r : List ℕ) (hy : ∀ a ∈ l, y ≤ a)
    (hc : c < y) :
    (l.zip r).countP (fun p => decide (p.1 ≤ c) && decide (c < p.2)) = 0 := by
  rw [List.countP_eq_zero]
  intro p hp
  have h1 : p.1 ∈ l := (List.of_mem_zip hp).1
  have h2 : y ≤ p.1 := hy _ h1
  simp only [Bool.and_eq_true, decide_eq_true_eq]
  intro h
  omega

lemma straddle_count (l : List ℕ) (hs : l.Sorted (· < ·)) (c : ℕ)
    (h0 : ∃ a ∈ l, a ≤ c) (h1 : ∃ b ∈ l, c < b) :
    (l.zip l.tail).countP (fun p => decide (p.1 ≤ c) && decide (c < p.2)) = 1 := by
  induction l with
  | nil => obtain ⟨a, ha, _⟩ := h0; simp at ha
  | cons x t ih =>
    cases t with
    | nil =>
      obtain ⟨a, ha, hac⟩ := h0
      obtain ⟨b, hb, hcb⟩ := h1
      simp only [List.mem_singleton] at ha hb
      subst ha; subst hb; omega
    | cons y rest =>
      have hxy : x < y := (List.sorted_cons.mp hs).1 y (by simp)
      have hs2 : (y :: rest).Sorted (· < ·) := (List.sorted_cons.mp hs).2
      have hyall : ∀ a ∈ y :: rest, y ≤ a := by
        intro a ha
        rcases List.mem_cons.mp ha with h | h
        · omega
        · exact le_of_lt ((List.sorted_cons.mp hs2).1 a h)
      simp only [List.zip, List.tail_cons, List.zipWith_cons_cons, List.countP_cons]
      by_cases hc : c < y
      · have hx : x ≤ c := by
          obtain ⟨a, ha, hac⟩ := h0
          rcases List.mem_cons.mp ha with h | h
          · omega
          · have := hyall a h; omega
        have hz := straddle_count_zero c y (y :: rest) rest hyall hc
        simp only [List.zip] at hz
        rw [hz]
        simp [hx, hc]
      · have hyc : y ≤ c := by omega
        have ht : ((y :: rest).zip rest).countP
            (fun p => decide (p.1 ≤ c) && decide (c < p.2)) = 1 := by
          have h1' : ∃ b ∈ y :: rest, c < b := by
            obtain ⟨b, hb, hcb⟩ := h1
            rcases List.mem_cons.mp hb with h | h
            · omega
            · exact ⟨b, h, hcb⟩
          have := ih hs2 ⟨y, by simp, hyc⟩ h1'
          simpa [List.zip] using this
        simp only [List.zip] at ht
        rw [ht]
        simp [hc]

lemma insertB_mem_iff (a : ℕ) (l : List ℕ) (x : ℕ) :
    x ∈ insertB a l ↔ x = a ∨ x ∈ l := by
  induction l with
  | nil => simp [insertB]
  | cons b t ih =>
    by_cases h1 : a < b
    · simp [insertB, h1, or_comm, List.mem_cons, or_assoc]
    · by_cases h2 : a = b
      · subst h2
        have he : insertB a (a :: t) = a :: t := by simp [insertB, h1]
        rw [he, List.mem_cons]
        tauto
      · simp only [insertB, if_neg h1, if_neg h2, List.mem_cons, ih]
        tauto

lemma insertB_sorted (a : ℕ) (l : List ℕ) (h : l.Sorted (· < ·)) :
    (insertB a l).Sorted (· < ·) := by
  induction l with
  | nil => simp [insertB]
  | cons b t ih =>
    have hb := (List.sorted_cons.mp h).1
    have ht := (List.sorted_cons.mp h).2
    by_cases h1 : a < b
    · simp only [insertB, if_pos h1]
      exact List.sorted_cons.mpr ⟨fun x hx => by
        rcases List.mem_cons.mp hx with rfl | hx
        · exact h1
        · exact lt_trans h1 (hb x hx), h⟩
    · by_cases h2 : a = b
      · simpa [insertB, h1, h2] using h
      · simp only [insertB, if_neg h1, if_neg h2]
        refine List.sorted_cons.mpr ⟨fun x hx => ?_, ih ht⟩
        rcases (insertB_mem_iff a t x).mp hx with rfl | hx
        · omega
        · exact hb x hx

lemma npUnique_sorted (l : List ℕ) : (npUnique l).Sorted (· < ·) := by
  induction l with
  | nil => simp [npUnique]
  | cons a t ih => exact insertB_sorted a _ ih

lemma npUnique_mem (l : List ℕ) (x : ℕ) : x ∈ npUnique l ↔ x ∈ l := by
  induction l with
  | nil => simp [npUnique]
  | cons a t ih =>
    simp only [npUnique, List.foldr_cons] at *
    rw [insertB_mem_iff, ih, List.mem_cons]

lemma feature_sync_boundaries_sorted (T : ℕ) (F : List ℕ) :
    (feature_sync_boundaries T F).Sorted (· < ·) :=
  npUnique_sorted _

lemma feature_sync_boundaries_mem_zero (T : ℕ) (F : List ℕ) :
    0 ∈ feature_sync_boundaries T F := by
  rw [feature_sync_boundaries, npUnique_mem]; simp

lemma feature_sync_boundaries_mem_top (T : ℕ) (F : List ℕ) :
    T ∈ feature_sync_boundaries T F := by
  rw [feature_sync_boundaries, npUnique_mem]; simp

/-- **C9.** Frame-synchronous aggregation inserts 0 and T as implicit
boundaries, deduplicates and sorts, and aggregates over consecutive half-open
intervals, so every column index in `[0, T)` lies in exactly one segment
(total coverage, no gaps, no overlaps); a d×10 matrix with boundaries `[3,7]`
yields segments over columns `[0,3)`, `[3,7)`, `[7,10)`. -/
theorem feature_sync_total_coverage :
    (∀ (T : ℕ) (F : List ℕ), (∀ f ∈ F, f ≤ T) → ∀ c, c < T →
      (feature_sync_segments T F).countP
        (fun p => decide (p.1 ≤ c) && decide (c < p.2)) = 1)
    ∧ feature_sync_segments 10 [3, 7] = [(0, 3), (3, 7), (7, 10)] := by
  constructor
  · intro T F _ c hc
    exact straddle_count _ (feature_sync_boundaries_sorted T F) c
      ⟨0, feature_sync_boundaries_mem_zero T F, Nat.zero_le c⟩
      ⟨T, feature_sync_boundaries_mem_top T F, hc⟩
  · decide

/-- Witness for C9 at the spec's concrete instance: column 5 of a 10-column
matrix with boundaries `[3,7]` lies in exactly one segment. -/
theorem feature_sync_total_coverage_witness :
    (feature_sync_segments 10 [3, 7]).countP
      (fun p => decide (p.1 ≤ 5) && decide (5 < p.2)) = 1 :=
  feature_sync_total_coverage.1 10 [3, 7] (by decide) 5 (by decide)

/-- **C3 counterexample.** On `[5,5,5]` the code returns all-false, not
`[false, false, true]`: the left-neighbour comparison is strict, so a constant
sequence never fires anywhere, including at the right edge. -/
theorem localmax_const_counterexample :
    localmax [(5 : ℤ), 5, 5] ≠ [false, false, true] := by decide

/-- **C3 (amended).** `localmax [1,3,2] = [false,true,false]` as claimed, but
`localmax [5,5,5] = [false,false,false]`: the right edge can fire on equality
with its own value only when the element strictly exceeds its left neighbour. -/
theorem localmax_examples :
    localmax [(1 : ℤ), 3, 2] = [false, true, false]
    ∧ localmax [(5 : ℤ), 5, 5] = [false, false, false] := by decide

/-! ### Mel-scale conversion (`hz_to_mel` lines 182-220, `mel_to_hz` lines 222-242)

numpy values are either a scalar or an array; the code wraps a scalar into a
one-element array (`f = numpy.array([f])`) and always returns an array.
The Slaney branch fills a zero vector through the two complementary masks
`linpts = f < brkfrq` and `nlinpts = invert(linpts)`.
-/

inductive NpVal where
  | scalar (x : ℝ)
  | array (xs : List ℝ)

def NpVal.isScalarB : NpVal → Bool
  | .scalar _ => true
  | .array _ => false

/-- `numpy.array([f])` wrapping for a scalar, identity for an array. -/
def NpVal.toList : NpVal → List ℝ
  | .scalar x => [x]
  | .array xs => xs

/-- `z[mask] = g(f[mask])`: elementwise masked assignment into `z`. -/
noncomputable def maskFill (xs z : List ℝ) (mask : ℝ → Prop) [DecidablePred mask]
    (g : ℝ → ℝ) : List ℝ :=
  List.zipWith (fun x zv => if mask x then g x else zv) xs z

/-- Scalar core of `hz_to_mel` (both conventions), for elementwise reasoning.
Decimal literals of the source (`200.0/3`, `1000.0`, ...) are written as the
equal real numerals. -/
noncomputable def hz_to_mel_scalar (f : ℝ) (htk : Bool) : ℝ :=
  if htk then 2595 * Real.logb 10 (1 + f / 700)
  else
    let f_0 : ℝ := 0
    let f_sp : ℝ := 200 / 3
    let brkfrq : ℝ := 1000
    let brkpt : ℝ := (brkfrq - f_0) / f_sp
    let logstep : ℝ := Real.exp (Real.log 6.4 / 27)
    if f < brkfrq then (f - f_0) / f_sp
    else brkpt + Real.log (f / brkfrq) / Real.log logstep

/-- Scalar core of `mel_to_hz` (both conventions). -/
noncomputable def mel_to_hz_scalar (z : ℝ) (htk : Bool) : ℝ :=
  if htk then 700 * ((10 : ℝ) ^ (z / 2595) - 1)
  else
    let f_0 : ℝ := 0
    let f_sp : ℝ := 200 / 3
    let brkfrq : ℝ := 1000
    let brkpt : ℝ := (brkfrq - f_0) / f_sp
    let logstep : ℝ := Real.exp (Real.log 6.4 / 27)
    if z < brkpt then f_0 + f_sp * z
    else brkfrq * Real.exp (Real.log logstep * (z - brkpt))

/-- `hz_to_mel` as written: scalar inputs are wrapped into a one-element
array, the result is always an array; the Slaney branch is the two-mask fill
of a zero vector. -/
noncomputable def hz_to_mel (f : NpVal) (htk : Bool) : NpVal :=
  let arr := f.toList
  if htk then
    NpVal.array (arr.map fun x => 2595 * Real.logb 10 (1 + x / 700))
  else
    let f_0 : ℝ := 0
    let f_sp : ℝ := 200 / 3
    let brkfrq : ℝ := 1000
    let brkpt : ℝ := (brkfrq - f_0) / f_sp
    let logstep : ℝ := Real.exp (Real.log 6.4 / 27)
    let z0 := List.replicate arr.length (0 : ℝ)
    let z1 := maskFill arr z0 (fun x => x < brkfrq) (fun x => (x - f_0) / f_sp)
    let z2 := maskFill arr z1 (fun x => ¬ x < brkfrq)
      (fun x => brkpt + Real.log (x / brkfrq) / Real.log logstep)
    NpVal.array z2

/-- `mel_to_hz` as written. -/
noncomputable def mel_to_hz (z : NpVal) (htk : Bool) : NpVal :=
  let arr := z.toList
  if htk then
    NpVal.array (arr.map fun x => 700 * ((10 : ℝ) ^ (x / 2595) - 1))
  else
    let f_0 : ℝ := 0
    let f_sp : ℝ := 200 / 3
    let brkfrq : ℝ := 1000
    let brkpt : ℝ := (brkfrq - f_0) / f_sp
    let logstep : ℝ := Real.exp (Real.log 6.4 / 27)
    let fz0 := List.replicate arr.length (0 : ℝ)
    let fz1 := maskFill arr fz0 (fun x => x < brkpt) (fun x => f_0 + f_sp * x)
    let fz2 := maskFill arr fz1 (fun x => ¬ x < brkpt)
      (fun x => brkfrq * Real.exp (Real.log logstep * (x - brkpt)))
    NpVal.array fz2

lemma maskFill_complement (xs : List ℝ) (mask : ℝ → Prop) [DecidablePred mask]
    (g h : ℝ → ℝ) :
    maskFill xs (maskFill xs (List.replicate xs.length 0) mask g)
      (fun x => ¬ mask x) h
    = xs.map (fun x => if mask x then g x else h x) := by
  induction xs with
  | nil => rfl
  | cons a t ih =>
    simp only [maskFill, List.length_cons, List.replicate_succ,
      List.zipWith_cons_cons, List.map_cons] at *
    refine congrArg₂ _ ?_ ih
    by_cases hm : mask a <;> simp [hm]

lemma if_bool_false {α : Sort _} (a b : α) : (if false = true then a else b) = b := rfl

lemma if_bool_true {α : Sort _} (a b : α) : (if true = true then a else b) = a := rfl

/-- The Slaney constant `log(logstep) = log(6.4)/27` is positive. -/
lemma log_logstep_pos : 0 < Real.log (Real.exp (Real.log 6.4 / 27)) := by
  rw [Real.log_exp]
  have : (0 : ℝ) < Real.log 6.4 := Real.log_pos (by norm_num)
  linarith

/-- **C7.** For every `f ∈ [0, 20000]` and both scale conventions, the round
trip `mel_to_hz_scalar (hz_to_mel_scalar f) = f` holds exactly in the real
model (the floating-point code realises it to floating precision). -/
theorem mel_round_trip (htk : Bool) (f : ℝ) (h0 : 0 ≤ f) (_h1 : f ≤ 20000) :
    mel_to_hz_scalar (hz_to_mel_scalar f htk) htk = f := by
  cases htk with
  | true =>
    simp only [hz_to_mel_scalar, mel_to_hz_scalar, reduceIte]
    have h700 : (0 : ℝ) < 1 + f / 700 := by
      have : (0 : ℝ) ≤ f / 700 := by positivity
      linarith
    rw [show (2595 : ℝ) * Real.logb 10 (1 + f / 700) / 2595
        = Real.logb 10 (1 + f / 700) by ring]
    rw [Real.rpow_logb (by norm_num) (by norm_num) h700]
    ring
  | false =>
    have hlpos := log_logstep_pos
    simp only [hz_to_mel_scalar, mel_to_hz_scalar, if_bool_false, if_true, if_false]
    by_cases hf : f < 1000
    · rw [if_pos hf]
      have hlt : (f - 0) / ((200 : ℝ) / 3) < ((1000 : ℝ) - 0) / (200 / 3) :=
        div_lt_div_of_pos_right (by linarith) (by norm_num)
      rw [if_pos hlt]
      field_simp
      ring
    · rw [if_neg hf]
      have hlog : 0 ≤ Real.log (f / 1000) :=
        Real.log_nonneg ((le_div_iff₀ (by norm_num)).mpr (by linarith))
      have hq : 0 ≤ Real.log (f / 1000) / Real.log (Real.exp (Real.log 6.4 / 27)) :=
        div_nonneg hlog (le_of_lt hlpos)
      rw [if_neg (by push_neg; linarith)]
      have hc : Real.log (Real.exp (Real.log 6.4 / 27))
          * (((1000 : ℝ) - 0) / (200 / 3)
            + Real.log (f / 1000) / Real.log (Real.exp (Real.log 6.4 / 27))
            - ((1000 : ℝ) - 0) / (200 / 3))
          = Real.log (f / 1000) := by
        have hne : Real.log (Real.exp (Real.log 6.4 / 27)) ≠ 0 := ne_of_gt hlpos
        field_simp
        ring
      rw [hc, Real.exp_log (div_pos (by linarith) (by norm_num))]
      field_simp

/-- Witness for C7 at `f = 0` under both conventions. -/
theorem mel_round_trip_witness :
    (0 : ℝ) ≤ 0 ∧ (0 : ℝ) ≤ 20000
    ∧ mel_to_hz_scalar (hz_to_mel_scalar 0 true) true = 0
    ∧ mel_to_hz_scalar (hz_to_mel_scalar 0 false) false = 0 :=
  ⟨le_refl 0, by norm_num,
    mel_round_trip true 0 (le_refl 0) (by norm_num),
    mel_round_trip false 0 (le_refl 0) (by norm_num)⟩

/-- **C8 counterexample.** A scalar input does not yield a scalar output:
`hz_to_mel(0)` (Slaney) returns the one-element array `[0]`, because the code
wraps scalars into `numpy.array([f])` and never unwraps the result. -/
theorem hz_to_mel_scalar_input_counterexample :
    (hz_to_mel (NpVal.scalar 0) false).isScalarB = false
    ∧ hz_to_mel (NpVal.scalar 0) false = NpVal.array [0] := by
  constructor
  · rfl
  · simp only [hz_to_mel, NpVal.toList, maskFill, List.length_cons,
      List.length_nil, List.replicate, List.zipWith_cons_cons, List.zipWith_nil_right]
    norm_num

/-- **C8 (amended).** Both converters accept a scalar or a sequence; the
output is always an array whose entries are the same elementwise formula as
the scalar core, so a sequence of length n yields a sequence of length n and
a scalar yields a one-element sequence (not a bare scalar). -/
theorem mel_shape_uniform (v : NpVal) (htk : Bool) :
    hz_to_mel v htk = NpVal.array (v.toList.map (fun x => hz_to_mel_scalar x htk))
    ∧ mel_to_hz v htk = NpVal.array (v.toList.map (fun x => mel_to_hz_scalar x htk))
    ∧ (hz_to_mel v htk).toList.length = v.toList.length
    ∧ (mel_to_hz v htk).toList.length = v.toList.length := by
  have h1 : hz_to_mel v htk
      = NpVal.array (v.toList.map (fun x => hz_to_mel_scalar x htk)) := by
    cases htk with
    | true => simp [hz_to_mel, hz_to_mel_scalar]
    | false =>
      simp only [hz_to_mel, Bool.false_eq_true, if_false]
      rw [maskFill_complement]
      simp [hz_to_mel_scalar]
  have h2 : mel_to_hz v htk
      = NpVal.array (v.toList.map (fun x => mel_to_hz_scalar x htk)) := by
    cases htk with
    | true => simp [mel_to_hz, mel_to_hz_scalar]
    | false =>
      simp only [mel_to_hz, Bool.false_eq_true, if_false]
      rw [maskFill_complement]
      simp [mel_to_hz_scalar]
  refine ⟨h1, h2, ?_, ?_⟩
  · rw [h1]; simp [NpVal.toList]
  · rw [h2]; simp [NpVal.toList]

/-! ### `logamplitude` (lines 387-405)

`D = 20*log10(maximum(amin, abs(S)))`; then, unless disabled,
`D[D < gain_threshold] = gain_threshold` — an absolute floor at
`gain_threshold`, applied to the raw dB values.
-/

noncomputable def logamplitude (S : List (List ℝ)) (amin : ℝ)
    (gain_threshold : Option ℝ) : List (List ℝ) :=
  let D := S.map (List.map (fun s => 20 * Real.logb 10 (max amin |s|)))
  match gain_threshold with
  | none => D
  | some g => D.map (List.map (fun d => if d < g then g else d))

lemma logb_ten_zpow (n : ℤ) : Real.logb 10 ((10 : ℝ) ^ n) = n := by
  rw [← Real.rpow_intCast 10 n, Real.logb_rpow (by norm_num) (by norm_num)]

/-- Evaluation of `logamplitude` on `[[1e6, 1e-6]]` with the default
`amin = 1e-10`, `gain_threshold = -80`. -/
lemma logamp_example_eval :
    logamplitude [[(10 : ℝ) ^ (6 : ℤ), (10 : ℝ) ^ (-6 : ℤ)]]
      ((10 : ℝ) ^ (-10 : ℤ)) (some (-80)) = [[120, -80]] := by
  have h6 : |(10 : ℝ) ^ (6 : ℤ)| = (10 : ℝ) ^ (6 : ℤ) :=
    abs_of_pos (zpow_pos (by norm_num) _)
  have hm6 : |(10 : ℝ) ^ (-6 : ℤ)| = (10 : ℝ) ^ (-6 : ℤ) :=
    abs_of_pos (zpow_pos (by norm_num) _)
  have hle6 : (10 : ℝ) ^ (-10 : ℤ) ≤ (10 : ℝ) ^ (6 : ℤ) := by
    rw [zpow_neg]
    norm_num
  have hlem6 : (10 : ℝ) ^ (-10 : ℤ) ≤ (10 : ℝ) ^ (-6 : ℤ) := by
    rw [zpow_neg, zpow_neg]
    norm_num
  simp only [logamplitude, List.map_cons, List.map_nil, h6, hm6,
    max_eq_right hle6, max_eq_right hlem6, logb_ten_zpow]
  norm_num

/-- **C2 counterexample.** The floor is absolute, not relative to the output
maximum: on `S = [[1e6, 1e-6]]` the output is `[[120, -80]]`, whose maximum is
120, and the entry `-80` is far below `max(output) + gain_threshold = 40`. -/
theorem logamplitude_relative_floor_counterexample :
    logamplitude [[(10 : ℝ) ^ (6 : ℤ), (10 : ℝ) ^ (-6 : ℤ)]]
      ((10 : ℝ) ^ (-10 : ℤ)) (some (-80)) = [[120, -80]]
    ∧ ¬ ((120 : ℝ) + (-80) ≤ -80) :=
  ⟨logamp_example_eval, by norm_num⟩

/-- **C2 (amended).** `logamplitude` computes `20*log10(max(amin,|s|))`
elementwise and clamps at the absolute floor `gain_threshold`: every output
entry is `≥ gain_threshold` (default −80 dB), independent of the matrix
maximum; an all-ones input yields the constant 0 dB matrix. -/
theorem logamplitude_absolute_floor :
    (∀ (S : List (List ℝ)) (amin g : ℝ) (row : List ℝ) (v : ℝ),
        row ∈ logamplitude S amin (some g) → v ∈ row → g ≤ v)
    ∧ ∀ m n : ℕ,
        logamplitude (List.replicate m (List.replicate n (1 : ℝ)))
          ((10 : ℝ) ^ (-10 : ℤ)) (some (-80))
        = List.replicate m (List.replicate n 0) := by
  constructor
  · intro S amin g row v hrow hv
    simp only [logamplitude, List.mem_map] at hrow
    obtain ⟨r1, _, rfl⟩ := hrow
    rw [List.mem_map] at hv
    obtain ⟨x, _, rfl⟩ := hv
    split_ifs with h
    · exact le_refl g
    · exact not_lt.mp h
  · intro m n
    have hone : |(1 : ℝ)| = 1 := abs_one
    have hle : (10 : ℝ) ^ (-10 : ℤ) ≤ 1 := by
      rw [zpow_neg]
      norm_num
    simp only [logamplitude, List.map_replicate, hone, max_eq_right hle,
      Real.logb_one, mul_zero]
    rw [if_neg (by norm_num)]

/-- Witness for C2's amended floor property at a concrete matrix. -/
theorem logamplitude_absolute_floor_witness :
    [(120 : ℝ), -80] ∈ logamplitude [[(10 : ℝ) ^ (6 : ℤ), (10 : ℝ) ^ (-6 : ℤ)]]
      ((10 : ℝ) ^ (-10 : ℤ)) (some (-80))
    ∧ (-80 : ℝ) ∈ [(120 : ℝ), -80]
    ∧ (-80 : ℝ) ≤ -80 := by
  have hmem : [(120 : ℝ), -80] ∈ logamplitude
      [[(10 : ℝ) ^ (6 : ℤ), (10 : ℝ) ^ (-6 : ℤ)]]
      ((10 : ℝ) ^ (-10 : ℤ)) (some (-80)) := by
    rw [logamp_example_eval]
    exact List.mem_singleton.mpr rfl
  have hv : (-80 : ℝ) ∈ [(120 : ℝ), -80] := by simp
  exact ⟨hmem, hv, logamplitude_absolute_floor.1 _ _ _ _ _ hmem hv⟩

/-! ### Mel filterbank builder `melfb` (lines 298-355)

`wts = numpy.zeros((nfilts, nfft))`; only columns `0..nfft/2` are assigned
triangular responses; the whole `(nfilts, nfft)` matrix — including the
untouched zero columns — is scaled by `diag(enorm)` and returned unsliced.
-/

/-- The `nfilts+2` mel-band edge frequencies of `melfb`:
`mel_to_hz(minmel + arange(nfilts+2)*(maxmel-minmel)/(nfilts+1))`. -/
noncomputable def melfb_binfreqs (nfilts : ℕ) (fmin fmaxv : ℝ) (use_htk : Bool)
    (k : ℕ) : ℝ :=
  mel_to_hz_scalar
    (hz_to_mel_scalar fmin use_htk
      + k * (hz_to_mel_scalar fmaxv use_htk - hz_to_mel_scalar fmin use_htk)
        / (nfilts + 1))
    use_htk

noncomputable def melfb (sr : ℝ) (nfft : ℕ) (nfilts : ℕ) (width : ℝ)
    (fmin : ℝ) (fmax : Option ℝ) (use_htk : Bool) : MatR :=
  let fmaxv := fmax.getD (sr / 2)
  let fftfreqs : ℕ → ℝ := fun j => (j : ℝ) / nfft * sr
  let binfreqs : ℕ → ℝ := melfb_binfreqs nfilts fmin fmaxv use_htk
  { rows := nfilts
    cols := nfft
    entry := fun i j =>
      if i < nfilts ∧ j < 1 + nfft / 2 then
        let c := binfreqs (i + 1)
        let fr0 := c + width * (binfreqs i - c)
        let fr2 := c + width * (binfreqs (i + 2) - c)
        let loslope := (fftfreqs j - fr0) / (c - fr0)
        let hislope := (fr2 - fftfreqs j) / (fr2 - c)
        2 / (binfreqs (i + 2) - binfreqs i) * max 0 (min loslope hislope)
      else 0 }

/-- `hz_to_mel` is strictly monotone on nonnegative frequencies, for both
conventions. -/
lemma hz_to_mel_scalar_lt (htk : Bool) {a b : ℝ} (ha : 0 ≤ a) (hab : a < b) :
    hz_to_mel_scalar a htk < hz_to_mel_scalar b htk := by
  cases htk with
  | true =>
    simp only [hz_to_mel_scalar, if_bool_true, if_true, if_false]
    have h1 : (0 : ℝ) < 1 + a / 700 := by
      have : (0 : ℝ) ≤ a / 700 := by positivity
      linarith
    have h2 : 1 + a / 700 < 1 + b / 700 := by
      have : a / 700 < b / 700 := div_lt_div_of_pos_right hab (by norm_num)
      linarith
    exact mul_lt_mul_of_pos_left (Real.logb_lt_logb (by norm_num) h1 h2) (by norm_num)
  | false =>
    have hlpos := log_logstep_pos
    simp only [hz_to_mel_scalar, if_bool_false, if_true, if_false]
    by_cases hb : b < 1000
    · rw [if_pos (lt_trans hab hb), if_pos hb]
      exact div_lt_div_of_pos_right (by linarith) (by norm_num)
    · rw [if_neg hb]
      have hq : 0 ≤ Real.log (b / 1000) / Real.log (Real.exp (Real.log 6.4 / 27)) := by
        apply div_nonneg ?_ (le_of_lt hlpos)
        exact Real.log_nonneg ((le_div_iff₀ (by norm_num)).mpr (by linarith))
      by_cases hA : a < 1000
      · rw [if_pos hA]
        have h1 : (a - 0) / ((200 : ℝ) / 3) < ((1000 : ℝ) - 0) / (200 / 3) :=
          div_lt_div_of_pos_right (by linarith) (by norm_num)
        linarith
      · rw [if_neg hA]
        have h1 : Real.log (a / 1000) < Real.log (b / 1000) := by
          apply Real.log_lt_log (div_pos (by linarith) (by norm_num))
          exact div_lt_div_of_pos_right hab (by norm_num)
        have h2 := div_lt_div_of_pos_right h1 hlpos
        linarith

/-- `mel_to_hz` is strictly monotone on all of ℝ, for both conventions. -/
lemma mel_to_hz_scalar_lt (htk : Bool) {a b : ℝ} (hab : a < b) :
    mel_to_hz_scalar a htk < mel_to_hz_scalar b htk := by
  cases htk with
  | true =>
    simp only [mel_to_hz_scalar, if_bool_true, if_true, if_false]
    have h1 : (10 : ℝ) ^ (a / 2595) < (10 : ℝ) ^ (b / 2595) :=
      (Real.rpow_lt_rpow_left_iff (by norm_num)).mpr
        (div_lt_div_of_pos_right hab (by norm_num))
    linarith
  | false =>
    have hlpos := log_logstep_pos
    simp only [mel_to_hz_scalar, if_bool_false, if_true, if_false]
    by_cases ha : a < (1000 - 0) / ((200 : ℝ) / 3)
    · rw [if_pos ha]
      by_cases hb : b < (1000 - 0) / ((200 : ℝ) / 3)
      · rw [if_pos hb]
        nlinarith
      · rw [if_neg hb]
        have h1 : (0 : ℝ) + 200 / 3 * a < 1000 := by
          have := mul_lt_mul_of_pos_left ha (show (0 : ℝ) < 200 / 3 by norm_num)
          have he : (200 : ℝ) / 3 * ((1000 - 0) / (200 / 3)) = 1000 := by
            norm_num
          linarith [he ▸ this]
        have h2 : (1000 : ℝ) ≤ 1000 * Real.exp
            (Real.log (Real.exp (Real.log 6.4 / 27)) * (b - (1000 - 0) / (200 / 3))) := by
          have hx : 0 ≤ Real.log (Real.exp (Real.log 6.4 / 27))
              * (b - (1000 - 0) / (200 / 3)) := by
            apply mul_nonneg (le_of_lt hlpos)
            push_neg at hb
            linarith
          nlinarith [Real.one_le_exp hx]
        linarith
    · rw [if_neg ha, if_neg (by push_neg at ha ⊢; linarith)]
      have h1 : Real.log (Real.exp (Real.log 6.4 / 27)) * (a - (1000 - 0) / (200 / 3))
          < Real.log (Real.exp (Real.log 6.4 / 27)) * (b - (1000 - 0) / (200 / 3)) :=
        mul_lt_mul_of_pos_left (by linarith) hlpos
      have := Real.exp_lt_exp.mpr h1
      nlinarith [Real.exp_pos (Real.log (Real.exp (Real.log 6.4 / 27))
        * (a - (1000 - 0) / (200 / 3)))]

/-- The mel-band edges are strictly increasing when `0 ≤ fmin < fmax`. -/
lemma melfb_binfreqs_lt (nfilts : ℕ) {fmin fmaxv : ℝ} (use_htk : Bool)
    (h0 : 0 ≤ fmin) (h1 : fmin < fmaxv) {k l : ℕ} (hkl : k < l) :
    melfb_binfreqs nfilts fmin fmaxv use_htk k
      < melfb_binfreqs nfilts fmin fmaxv use_htk l := by
  apply mel_to_hz_scalar_lt
  have hd : 0 < hz_to_mel_scalar fmaxv use_htk - hz_to_mel_scalar fmin use_htk :=
    sub_pos.mpr (hz_to_mel_scalar_lt use_htk h0 h1)
  have hnp : (0 : ℝ) < (nfilts : ℝ) + 1 := by positivity
  have hkl' : (k : ℝ) < (l : ℝ) := by exact_mod_cast hkl
  have := div_lt_div_of_pos_right
    (mul_lt_mul_of_pos_right hkl' hd) hnp
  linarith

/-- **C4 counterexample.** `melfb` returns a matrix with `nfft` columns (the
zero-initialised `(nfilts, nfft)` buffer is returned unsliced), not
`K = nfft/2 + 1` columns: with `nfft = 8` it has 8 columns, not 5. -/
theorem melfb_shape_counterexample :
    (melfb 8000 8 2 1 0 none false).cols = 8 ∧ (8 : ℕ) ≠ 1 + 8 / 2 :=
  ⟨rfl, by norm_num⟩

/-- **C4 (amended).** For valid inputs (`0 ≤ fmin < fmax`), `melfb` returns a
nonnegative matrix of shape `nfilts × nfft` whose columns beyond
`K = nfft/2 + 1` are identically zero (only the first K columns carry the
triangular responses). -/
theorem melfb_shape_nonneg (sr : ℝ) (nfft nfilts : ℕ) (width fmin fmaxv : ℝ)
    (use_htk : Bool) (h0 : 0 ≤ fmin) (h1 : fmin < fmaxv) :
    (melfb sr nfft nfilts width fmin (some fmaxv) use_htk).rows = nfilts
    ∧ (melfb sr nfft nfilts width fmin (some fmaxv) use_htk).cols = nfft
    ∧ (∀ i j, 0 ≤ (melfb sr nfft nfilts width fmin (some fmaxv) use_htk).entry i j)
    ∧ (∀ i j, 1 + nfft / 2 ≤ j →
        (melfb sr nfft nfilts width fmin (some fmaxv) use_htk).entry i j = 0) := by
  refine ⟨rfl, rfl, ?_, ?_⟩
  · intro i j
    simp only [melfb, Option.getD_some]
    by_cases h : i < nfilts ∧ j < 1 + nfft / 2
    · rw [if_pos h]
      apply mul_nonneg
      · apply div_nonneg (by norm_num)
        have := melfb_binfreqs_lt nfilts use_htk h0 h1
          (show i < i + 2 by omega)
        linarith
      · exact le_max_left 0 _
    · rw [if_neg h]
  · intro i j hj
    simp only [melfb, Option.getD_some]
    rw [if_neg (by omega)]

/-- Witness for C4's amended statement at a concrete valid input. -/
theorem melfb_shape_nonneg_witness :
    (0 : ℝ) ≤ 0 ∧ (0 : ℝ) < 4000
    ∧ (melfb 8000 8 2 1 0 (some 4000) false).rows = 2
    ∧ (melfb 8000 8 2 1 0 (some 4000) false).cols = 8
    ∧ 0 ≤ (melfb 8000 8 2 1 0 (some 4000) false).entry 0 1
    ∧ (melfb 8000 8 2 1 0 (some 4000) false).entry 0 7 = 0 := by
  have h := melfb_shape_nonneg 8000 8 2 1 0 4000 false (le_refl 0) (by norm_num)
  exact ⟨le_refl 0, by norm_num, h.1, h.2.1, h.2.2.1 0 1, h.2.2.2 0 7 (by norm_num)⟩

/-! ### Window construction: `pad` (lines 454-476) and `scipy.signal.hann`

`pad` writes `w` into a zero vector of length `d_pad` and, when centering,
rolls it right by `floor((d_pad - len(w))/2)`; it raises when `w` is longer
than the target.  `hann(M)` is the symmetric Hann window
`0.5 - 0.5*cos(2*pi*n/(M-1))`.
-/

def pad (w : List ℝ) (d_pad : ℕ) (center : Bool) : Except String (List ℝ) :=
  if d_pad < w.length then Except.error "Insufficient pad space"
  else
    let q := w ++ List.replicate (d_pad - w.length) 0
    Except.ok (if center then q.rotateRight ((d_pad - w.length) / 2) else q)

noncomputable def hann (M : ℕ) : List ℝ :=
  if M = 1 then [1]
  else (List.range M).map
    (fun n : ℕ => 0.5 - 0.5 * Real.cos (2 * Real.pi * (n : ℝ) / ((M : ℝ) - 1)))

lemma hann_length (M : ℕ) : (hann M).length = M := by
  by_cases h : M = 1
  · simp [hann, h]
  · rw [hann, if_neg h, List.length_map, List.length_range]

/-- `stft`'s analysis window (lines 98-102): all-ones in null-window mode,
otherwise the centred zero-padded Hann window. -/
noncomputable def stft_window (n_fft : ℕ) (hann_w : ℕ) : Except String (List ℝ) :=
  if hann_w = 0 then Except.ok (List.replicate n_fft 1)
  else pad (hann hann_w) n_fft true

/-- `istft`'s synthesis window (lines 152-160): all-ones in null-window mode
(no scaling), otherwise the centred zero-padded `hann * 2.0 / 3`. -/
noncomputable def istft_window (n_fft : ℕ) (hann_w : ℕ) : Except String (List ℝ) :=
  if hann_w = 0 then Except.ok (List.replicate n_fft 1)
  else pad ((hann hann_w).map (fun x => x * 2 / 3)) n_fft true

lemma rotateRight_map (f : ℝ → ℝ) (l : List ℝ) (n : ℕ) :
    (l.map f).rotateRight n = (l.rotateRight n).map f := by
  simp only [List.rotateRight, List.length_map]
  by_cases h : l.length ≤ 1
  · rw [if_pos h, if_pos h]
  · rw [if_neg h, if_neg h]
    simp [List.map_take, List.map_drop]

lemma pad_map (w : List ℝ) (d_pad : ℕ) (center : Bool) (f : ℝ → ℝ) (hf : f 0 = 0) :
    pad (w.map f) d_pad center = (pad w d_pad center).map (List.map f) := by
  simp only [pad, List.length_map]
  by_cases h : d_pad < w.length
  · rw [if_pos h, if_pos h]
    rfl
  · rw [if_neg h, if_neg h]
    simp only [Except.map]
    cases center with
    | true =>
      simp only [if_true]
      rw [← rotateRight_map]
      congr 2
      simp [hf]
    | false =>
      simp [hf]

/-- **C10.** With `hann_w = 0`, `istft` uses the unscaled all-ones window of
length `n_fft` (no 2/3 factor); the empirical 2/3 correction is applied
exactly in the Hann mode (`hann_w ≠ 0`), where the synthesis window is the
analysis window scaled elementwise by `2/3`. -/
theorem istft_window_modes (n_fft : ℕ) :
    istft_window n_fft 0 = Except.ok (List.replicate n_fft 1)
    ∧ ∀ w, w ≠ 0 → istft_window n_fft w
        = (stft_window n_fft w).map (List.map (fun x => x * 2 / 3)) := by
  constructor
  · simp [istft_window]
  · intro w hw
    simp only [istft_window, stft_window, if_neg hw]
    exact pad_map (hann w) n_fft true _ (by norm_num)

/-- Witness for C10 at `n_fft = 4`, `hann_w ∈ {0, 4}`. -/
theorem istft_window_modes_witness :
    istft_window 4 0 = Except.ok (List.replicate 4 1)
    ∧ (4 : ℕ) ≠ 0
    ∧ istft_window 4 4 = (stft_window 4 4).map (List.map (fun x => x * 2 / 3)) :=
  ⟨(istft_window_modes 4).1, by decide, (istft_window_modes 4).2 4 (by decide)⟩

/-! ### `stft` (lines 78-124) and `istft` (lines 127-179)

numpy ndarrays are modelled with an explicit `ndim`; basic column slicing of
a 2-D array yields a 1-D array, and two-index access `px[:, 0]` on a 1-D
array is an `IndexError`, exactly as in numpy.
-/

structure NpArray where
  ndim : ℕ
  shape0 : ℕ
  shape1 : ℕ
  entry : ℕ → ℕ → ℂ

/-- `numpy.fft.fft` of an `n`-point sequence. -/
noncomputable def npfft (n : ℕ) (u : ℕ → ℂ) (k : ℕ) : ℂ :=
  ∑ j ∈ Finset.range n,
    u j * Complex.exp (-2 * Real.pi * Complex.I * j * k / n)

noncomputable def stft (y : List ℝ) (n_fft : ℕ) (hann_w : Option ℕ)
    (hop_length : Option ℕ) : Except String NpArray :=
  let num_samples := y.length
  let hw := hann_w.getD n_fft
  match stft_window n_fft hw with
  | Except.error e => Except.error e
  | Except.ok window =>
    let hop := hop_length.getD (n_fft / 2)
    if hop = 0 then Except.error "ZeroDivisionError: integer division or modulo by zero"
    else
      let n_specbins := 1 + n_fft / 2
      let n_frames : ℤ := 1 + Int.fdiv ((num_samples : ℤ) - (n_fft : ℤ)) (hop : ℤ)
      if n_frames < 0 then Except.error "ValueError: negative dimensions are not allowed"
      else
        Except.ok
          { ndim := 2, shape0 := n_specbins, shape1 := n_frames.toNat,
            entry := fun k i =>
              (starRingEnd ℂ) (npfft n_fft
                (fun j => ((window.getD j 0 : ℝ) : ℂ) * ((y.getD (i * hop + j) 0 : ℝ) : ℂ)) k) }

/-- `d[:, j]` — basic slicing of a 2-D array produces a 1-D array. -/
def npColumn (a : NpArray) (j : ℕ) : NpArray :=
  { ndim := 1, shape0 := a.shape0, shape1 := 1, entry := fun i _ => a.entry i j }

noncomputable def npConj (a : NpArray) : NpArray :=
  { a with entry := fun i j => (starRingEnd ℂ) (a.entry i j) }

/-- `ft[-2:0:-1]` along axis 0: entries `shape0-2, ..., 1` in reverse. -/
def npRevInterior (a : NpArray) : NpArray :=
  { a with shape0 := a.shape0 - 2, entry := fun i j => a.entry (a.shape0 - 2 - i) j }

/-- `numpy.concatenate((a, b), 0)`. -/
def npConcat (a b : NpArray) : NpArray :=
  { a with shape0 := a.shape0 + b.shape0,
           entry := fun i j => if i < a.shape0 then a.entry i j else b.entry (i - a.shape0) j }

/-- `numpy.fft.ifft(·, axis=0)`. -/
noncomputable def npIfft (a : NpArray) : NpArray :=
  { a with entry := fun k j =>
      (1 / (a.shape0 : ℂ)) * ∑ m ∈ Finset.range a.shape0,
        a.entry m j * Complex.exp (2 * Real.pi * Complex.I * m * k / a.shape0) }

/-- `.real`. -/
noncomputable def npRealPart (a : NpArray) : NpArray :=
  { a with entry := fun i j => ((a.entry i j).re : ℂ) }

/-- `px[:, 0]`: valid only on arrays with at least 2 dimensions; on a 1-D
array numpy raises `IndexError: too many indices`. -/
def npIndexColZero (px : NpArray) : Except String NpArray :=
  if 2 ≤ px.ndim then Except.ok (npColumn px 0)
  else Except.error "IndexError: too many indices"

/-- `x[b:(b+n_fft)] = x[b:(b+n_fft)] + window * px[:,0]` (overlap-add). -/
noncomputable def olaAdd (x : List ℝ) (b n_fft : ℕ) (contrib : ℕ → ℝ) : List ℝ :=
  (List.range x.length).map fun i =>
    if b ≤ i ∧ i < b + n_fft then x.getD i 0 + contrib (i - b) else x.getD i 0

/-- One iteration of `istft`'s overlap-add loop at frame start `b`. -/
noncomputable def istftFrame (d : NpArray) (window : List ℝ) (n_fft hop : ℕ)
    (x : List ℝ) (b : ℕ) : Except String (List ℝ) :=
  let ft := npColumn d (b / hop)
  let ftfull := npConcat (npConj ft) (npRevInterior ft)
  let px := npRealPart (npIfft ftfull)
  match npIndexColZero px with
  | Except.error e => Except.error e
  | Except.ok pcol =>
    Except.ok (olaAdd x b n_fft (fun i => window.getD i 0 * (pcol.entry i 0).re))

noncomputable def istftLoop (d : NpArray) (window : List ℝ) (n_fft hop : ℕ) :
    List ℕ → List ℝ → Except String (List ℝ)
  | [], x => Except.ok x
  | b :: bs, x =>
    match istftFrame d window n_fft hop x b with
    | Except.error e => Except.error e
    | Except.ok x2 => istftLoop d window n_fft hop bs x2

noncomputable def istft (d : NpArray) (n_fft0 hann_w0 hop0 : Option ℕ) :
    Except String (List ℝ) :=
  let n := d.shape1
  let n_fft := n_fft0.getD (2 * (d.shape0 - 1))
  let hw := hann_w0.getD n_fft
  match istft_window n_fft hw with
  | Except.error e => Except.error e
  | Except.ok window =>
    let hop := hop0.getD (n_fft / 2)
    let x_length : ℤ := (n_fft : ℤ) + ((n : ℤ) - 1) * (hop : ℤ)
    if x_length < 0 then Except.error "ValueError: negative dimensions are not allowed"
    else if hop = 0 then Except.error "ValueError: range() arg 3 must not be zero"
    else istftLoop d window n_fft hop ((List.range n).map (· * hop))
      (List.replicate x_length.toNat 0)

/-- **C1 (code bug).** `istft(stft(x))` never returns: `istft` evaluates
`px[:, 0]` where `px` is the 1-D real part of the inverse FFT of a 1-D
column, so every frame raises `IndexError` for ndarray input — here at
`x = ones(7)`, `n_fft = 4`, `hop = 1 = n_fft/4`, where the code's own
comment promises (approximate) round-trip identity. -/
theorem istft_stft_crashes :
    ((stft (List.replicate 7 (1 : ℝ)) 4 none (some 1)).bind
        fun M => istft M none none (some 1))
    = Except.error "IndexError: too many indices" := by
  rfl

/-- Extracts the row count of a successful `stft` result (`none` on error). -/
def exceptShape0 : Except String NpArray → Option ℕ
  | Except.ok m => some m.shape0
  | Except.error _ => none

/-- Extracts the column count of a successful `stft` result (`none` on error). -/
def exceptShape1 : Except String NpArray → Option ℕ
  | Except.ok m => some m.shape1
  | Except.error _ => none

/-- With the default window length (`hann_w = n_fft`), the window always
pads successfully. -/
lemma stft_window_self_ok (n_fft : ℕ) : ∃ w, stft_window n_fft n_fft = Except.ok w := by
  by_cases h : n_fft = 0
  · subst h
    exact ⟨_, rfl⟩
  · cases hcase : stft_window n_fft n_fft with
    | ok w => exact ⟨w, rfl⟩
    | error e =>
      simp only [stft_window, if_neg h, pad, hann_length,
        if_neg (lt_irrefl n_fft)] at hcase
      exact Except.noConfusion hcase

/-- **C5.** For `N ≥ n_fft` and `hop ≥ 1`, `stft` succeeds and returns a
matrix with `K = n_fft/2 + 1` rows and `(N - n_fft)/hop + 1` columns. -/
theorem stft_shape (y : List ℝ) (n_fft hop : ℕ) (hfft : n_fft ≤ y.length)
    (hhop : 1 ≤ hop) :
    exceptShape0 (stft y n_fft none (some hop)) = some (n_fft / 2 + 1)
    ∧ exceptShape1 (stft y n_fft none (some hop)) = some ((y.length - n_fft) / hop + 1) := by
  obtain ⟨w, hwin⟩ := stft_window_self_ok n_fft
  have hfd : Int.fdiv ((y.length : ℤ) - (n_fft : ℤ)) (hop : ℤ)
      = (((y.length - n_fft) / hop : ℕ) : ℤ) := by
    rw [show ((y.length : ℤ) - (n_fft : ℤ)) = ((y.length - n_fft : ℕ) : ℤ) by
      push_cast [hfft]; ring]
    rw [← Int.ofNat_fdiv]
  simp only [stft, Option.getD_none, Option.getD_some, hwin]
  rw [if_neg (by omega : ¬ hop = 0),
    if_neg (by rw [hfd]; exact not_lt.mpr (by positivity))]
  constructor
  · simp only [exceptShape0]
    rw [Nat.add_comm]
  · simp only [exceptShape1, hfd]
    refine congrArg some ?_
    generalize (y.length - n_fft) / hop = q
    omega

/-- Witness for C5 at `N = 300`, `n_fft = 256`, `hop = 64`. -/
theorem stft_shape_witness :
    (256 : ℕ) ≤ (List.replicate 300 (0 : ℝ)).length
    ∧ (1 : ℕ) ≤ 64
    ∧ exceptShape0 (stft (List.replicate 300 (0 : ℝ)) 256 none (some 64))
        = some (256 / 2 + 1)
    ∧ exceptShape1 (stft (List.replicate 300 (0 : ℝ)) 256 none (some 64))
        = some (((List.replicate 300 (0 : ℝ)).length - 256) / 64 + 1) := by
  have h := stft_shape (List.replicate 300 (0 : ℝ)) 256 64
    (by rw [List.length_replicate]; norm_num) (by norm_num)
  exact ⟨by rw [List.length_replicate]; norm_num, by norm_num, h.1, h.2⟩

/-- **C6 counterexample.** A signal one sample short of `n_fft` does NOT make
`stft` fail: with `N = 255 < n_fft = 256` (default hop 128) the frame count
is `1 + floor(-1/128) = 0`, `numpy.empty((129, 0))` succeeds, and `stft`
returns an empty 0-column matrix. -/
theorem stft_no_error_counterexample :
    exceptShape1 (stft (List.replicate 255 (0 : ℝ)) 256 none none) = some 0 := by
  rfl

/-- **C6 (amended).** For `N < n_fft` (hop ≥ 1): `stft` raises the
negative-dimensions error exactly when `N + hop < n_fft` (frame count
negative); when `n_fft - hop ≤ N < n_fft` it instead returns an empty matrix
with 0 columns. -/
theorem stft_short_signal (y : List ℝ) (n_fft hop : ℕ) (hhop : 1 ≤ hop)
    (hshort : y.length < n_fft) :
    (y.length + hop < n_fft →
      stft y n_fft none (some hop)
        = Except.error "ValueError: negative dimensions are not allowed")
    ∧ (n_fft ≤ y.length + hop →
      exceptShape1 (stft y n_fft none (some hop)) = some 0) := by
  obtain ⟨w, hwin⟩ := stft_window_self_ok n_fft
  have hhz : (0 : ℤ) < (hop : ℤ) := by exact_mod_cast hhop
  have hfd : Int.fdiv ((y.length : ℤ) - (n_fft : ℤ)) (hop : ℤ)
      = ((y.length : ℤ) - (n_fft : ℤ)) / (hop : ℤ) :=
    Int.fdiv_eq_ediv _ (le_of_lt hhz)
  constructor
  · intro hlt
    have hneg : 1 + Int.fdiv ((y.length : ℤ) - (n_fft : ℤ)) (hop : ℤ) < 0 := by
      rw [hfd]
      have : ((y.length : ℤ) - (n_fft : ℤ)) / (hop : ℤ) < -1 :=
        (Int.ediv_lt_iff_lt_mul hhz).mpr (by omega)
      omega
    simp only [stft, Option.getD_none, Option.getD_some, hwin]
    rw [if_neg (by omega), if_pos hneg]
  · intro hge
    have heq : Int.fdiv ((y.length : ℤ) - (n_fft : ℤ)) (hop : ℤ) = -1 := by
      rw [hfd]
      have hlo : (-1 : ℤ) ≤ ((y.length : ℤ) - (n_fft : ℤ)) / (hop : ℤ) :=
        (Int.le_ediv_iff_mul_le hhz).mpr (by omega)
      have hhi : ((y.length : ℤ) - (n_fft : ℤ)) / (hop : ℤ) < 0 :=
        (Int.ediv_lt_iff_lt_mul hhz).mpr (by omega)
      omega
    simp only [stft, Option.getD_none, Option.getD_some, hwin]
    rw [if_neg (by omega : ¬ hop = 0), if_neg (by rw [heq]; norm_num)]
    simp [exceptShape1, heq]

/-- Witness for C6's amended statement: `N = 100`, `n_fft = 256`, `hop = 128`
raises; `N = 200` returns an empty matrix. -/
theorem stft_short_signal_witness :
    (1 : ℕ) ≤ 128
    ∧ (List.replicate 100 (0 : ℝ)).length < 256
    ∧ stft (List.replicate 100 (0 : ℝ)) 256 none (some 128)
        = Except.error "ValueError: negative dimensions are not allowed"
    ∧ (List.replicate 200 (0 : ℝ)).length < 256
    ∧ exceptShape1 (stft (List.replicate 200 (0 : ℝ)) 256 none (some 128))
        = some 0 := by
  have h1 := (stft_short_signal (List.replicate 100 (0 : ℝ)) 256 128 (by norm_num)
    (by rw [List.length_replicate]; norm_num)).1
    (by rw [List.length_replicate]; norm_num)
  have h2 := (stft_short_signal (List.replicate 200 (0 : ℝ)) 256 128 (by norm_num)
    (by rw [List.length_replicate]; norm_num)).2
    (by rw [List.length_replicate]; norm_num)
  exact ⟨by norm_num, by rw [List.length_replicate]; norm_num, h1,
    by rw [List.length_replicate]; norm_num, h2⟩

end Librosa
